import Mathlib

/-!
# Verification of the contact-directory core (`src/main.py`)

Shallow embedding of the address-book program: proleptic-Gregorian calendar
dates (as used by Python's `datetime.date`), the `Phone` / `Birthday` field
validators, `Record` phone-list operations, the `AddressBook` mapping, and
the `get_upcoming_birthdays` query with its weekend adjustment.

Machine-level conventions of the source that the embedding mirrors:
* Python `date` objects are triples (year, month, day) ordered
  lexicographically; `date.toordinal()` numbers 0001-01-01 as day 1 and
  `weekday()` is `(toordinal - 1) % 7` with Monday = 0.
* `date + timedelta(days=n)` for `n ≥ 0` is `n`-fold calendar successor.
* Exceptions (`ValueError`) are modelled with `Except` / `Option`.
-/

namespace ContactBook

/-- A calendar date as Python's `datetime.date`: year, month (1-12),
day (1-31).  Validity is a separate predicate, because the program builds
candidate dates (via `date.replace`) that may be invalid. -/
structure Date where
  year : Nat
  month : Nat
  day : Nat
  deriving DecidableEq, Repr

/-- Gregorian leap-year rule, as Python's `calendar`/`datetime`:
divisible by 4 and not by 100, or divisible by 400. -/
def isLeap (y : Nat) : Bool :=
  (y % 4 == 0 && y % 100 != 0) || y % 400 == 0

/-- Number of days in a month of a given year (Python `_days_in_month`). -/
def daysInMonth (y : Nat) (m : Nat) : Nat :=
  match m with
  | 1 => 31
  | 2 => if isLeap y then 29 else 28
  | 3 => 31
  | 4 => 30
  | 5 => 31
  | 6 => 30
  | 7 => 31
  | 8 => 31
  | 9 => 30
  | 10 => 31
  | 11 => 30
  | 12 => 31
  | _ => 0

/-- Days in the months of year `y` strictly before month `m`
(Python `_days_before_month`). -/
def daysBeforeMonth (y : Nat) (m : Nat) : Nat :=
  let L : Nat := if isLeap y then 1 else 0
  match m with
  | 1 => 0
  | 2 => 31
  | 3 => 59 + L
  | 4 => 90 + L
  | 5 => 120 + L
  | 6 => 151 + L
  | 7 => 181 + L
  | 8 => 212 + L
  | 9 => 243 + L
  | 10 => 273 + L
  | 11 => 304 + L
  | 12 => 334 + L
  | _ => 0

/-- Days in all years from 1 up to `y` inclusive (Python `_days_before_year y+1`). -/
def daysBeforeYear (y : Nat) : Nat :=
  365 * y + y / 4 - y / 100 + y / 400

/-- Python's `date.toordinal()`: 0001-01-01 is day 1. -/
def ord (d : Date) : Nat :=
  daysBeforeYear (d.year - 1) + daysBeforeMonth d.year d.month + d.day

/-- Python's `date.weekday()`: Monday = 0, ..., Sunday = 6. -/
def weekday (d : Date) : Nat :=
  (ord d + 6) % 7

/-- Structural validity of a date triple: the condition `date.__new__`
checks (month 1-12, day 1..days-in-month), with the year bound relaxed
upwards (`Date.pyValid` adds Python's `MINYEAR`/`MAXYEAR` range). -/
def Date.Valid (d : Date) : Prop :=
  1 ≤ d.year ∧ 1 ≤ d.month ∧ d.month ≤ 12 ∧ 1 ≤ d.day ∧ d.day ≤ daysInMonth d.year d.month

instance (d : Date) : Decidable d.Valid := by
  unfold Date.Valid; infer_instance

/-- Exactly the triples Python's `date(y, m, d)` constructor accepts:
structural validity plus `1 ≤ year ≤ 9999`. -/
def Date.pyValid (d : Date) : Prop :=
  d.Valid ∧ d.year ≤ 9999

instance (d : Date) : Decidable d.pyValid := by
  unfold Date.pyValid; infer_instance

/-- Lexicographic comparison of dates, as Python compares `date` objects. -/
def dateLt (a b : Date) : Bool :=
  a.year < b.year ||
    (a.year == b.year && (a.month < b.month ||
      (a.month == b.month && a.day < b.day)))

/-- The calendar successor of a date (what `date + timedelta(days=1)` yields
on a valid date). -/
def nextDay (d : Date) : Date :=
  if d.day < daysInMonth d.year d.month then ⟨d.year, d.month, d.day + 1⟩
  else if d.month < 12 then ⟨d.year, d.month + 1, 1⟩
  else ⟨d.year + 1, 1, 1⟩

/-- `date + timedelta(days=n)` for `n ≥ 0`: iterated calendar successor. -/
def addDays (d : Date) : Nat → Date
  | 0 => d
  | n + 1 => addDays (nextDay d) n

/-! ## `strptime("%d.%m.%Y")` and `strftime("%d.%m.%Y")` -/

/-- ASCII decimal digit. -/
def isAsciiDigit (c : Char) : Bool :=
  '0' ≤ c && c ≤ '9'

/-- Numeric value of an ASCII digit character. -/
def digitVal (c : Char) : Nat :=
  c.toNat - 48

/-- Split a character list at every '.' (the literal separators of the
format `"%d.%m.%Y"`; CPython's `_strptime` regex anchors fields between
the escaped literals, so the dot positions determine the field widths). -/
def splitDots : List Char → List (List Char)
  | [] => [[]]
  | c :: cs =>
    if c = '.' then [] :: splitDots cs
    else
      match splitDots cs with
      | [] => [[c]]
      | p :: ps => (c :: p) :: ps

/-- The `%d` field of CPython `_strptime`: regex `3[01]|[12]\d|0[1-9]|[1-9]`,
i.e. one character 1-9, or two digit characters with value 01-31.
(The source models `\d` as an ASCII digit; Python's regex `\d` also matches
other Unicode decimal digits, which only widens the accepted set.) -/
def dayField : List Char → Option Nat
  | [c] => if '1' ≤ c && c ≤ '9' then some (digitVal c) else none
  | [c1, c2] =>
    if isAsciiDigit c1 && isAsciiDigit c2 then
      let v := 10 * digitVal c1 + digitVal c2
      if 1 ≤ v && v ≤ 31 then some v else none
    else none
  | _ => none

/-- The `%m` field of CPython `_strptime`: regex `1[0-2]|0[1-9]|[1-9]`,
i.e. one character 1-9, or two digit characters with value 01-12. -/
def monthField : List Char → Option Nat
  | [c] => if '1' ≤ c && c ≤ '9' then some (digitVal c) else none
  | [c1, c2] =>
    if isAsciiDigit c1 && isAsciiDigit c2 then
      let v := 10 * digitVal c1 + digitVal c2
      if 1 ≤ v && v ≤ 12 then some v else none
    else none
  | _ => none

/-- The `%Y` field of CPython `_strptime`: regex `\d\d\d\d`, exactly four
digit characters. -/
def yearField : List Char → Option Nat
  | [c1, c2, c3, c4] =>
    if isAsciiDigit c1 && isAsciiDigit c2 && isAsciiDigit c3 && isAsciiDigit c4 then
      some (1000 * digitVal c1 + 100 * digitVal c2 + 10 * digitVal c3 + digitVal c4)
    else none
  | _ => none

/-- `datetime.strptime(s, "%d.%m.%Y").date()`: the whole string must match
`%d`, a dot, `%m`, a dot, `%Y`, and the resulting triple must be a date
Python's `date` constructor accepts; otherwise `ValueError` (`none`). -/
def parseDMY (s : String) : Option Date :=
  match splitDots s.data with
  | [df, mf, yf] =>
    match dayField df, monthField mf, yearField yf with
    | some d, some m, some y =>
      if (⟨y, m, d⟩ : Date).pyValid then some ⟨y, m, d⟩ else none
    | _, _, _ => none
  | _ => none

/-- The character of a decimal digit. -/
def digitChar : Nat → Char
  | 0 => '0'
  | 1 => '1'
  | 2 => '2'
  | 3 => '3'
  | 4 => '4'
  | 5 => '5'
  | 6 => '6'
  | 7 => '7'
  | 8 => '8'
  | 9 => '9'
  | _ => '*'

/-- Two-digit zero-padded decimal rendering (`%d`, `%m`). -/
def pad2 (n : Nat) : List Char :=
  [digitChar (n / 10 % 10), digitChar (n % 10)]

/-- Four-digit decimal rendering (`%Y`).  Faithful to `strftime` for years
`≥ 1000` (all four-digit years); below 1000 the padding of `%Y` is
platform-dependent in Python, so theorems only invoke this on years `≥ 1000`. -/
def pad4 (n : Nat) : List Char :=
  [digitChar (n / 1000 % 10), digitChar (n / 100 % 10), digitChar (n / 10 % 10),
    digitChar (n % 10)]

/-- `d.strftime("%d.%m.%Y")` (`AddressBook.date_to_string`). -/
def formatDMY (d : Date) : String :=
  ⟨pad2 d.day ++ '.' :: pad2 d.month ++ '.' :: pad4 d.year⟩

/-! ## Field validators (`Phone.__init__`, `Birthday.__init__`) -/

/-- Python's `str.isdigit` on one character: true when the character has
Unicode numeric type Digit or Decimal.  Modelled on ASCII digits plus the
common non-ASCII digit blocks (superscripts, subscripts, Arabic-Indic,
fullwidth); Python accepts further Unicode digit characters not listed
here, which only widens the accepted set beyond ASCII in the same way. -/
def pyCharIsDigit (c : Char) : Bool :=
  let n := c.toNat
  (48 ≤ n && n ≤ 57)                -- '0'-'9'
  || n == 0xB2 || n == 0xB3 || n == 0xB9  -- superscript two, three, one
  || (0x660 ≤ n && n ≤ 0x669)       -- Arabic-Indic digits
  || (0x6F0 ≤ n && n ≤ 0x6F9)       -- extended Arabic-Indic digits
  || n == 0x2070 || (0x2074 ≤ n && n ≤ 0x2079)  -- superscript digits
  || (0x2080 ≤ n && n ≤ 0x2089)     -- subscript digits
  || (0xFF10 ≤ n && n ≤ 0xFF19)     -- fullwidth digits

/-- Python's `str.isdigit`: non-empty and every character a digit. -/
def pyStrIsDigit (s : String) : Bool :=
  !s.data.isEmpty && s.data.all pyCharIsDigit

/-- The error `Phone.__init__` raises. -/
inductive PhoneErr where
  | invalidPhone
  deriving DecidableEq, Repr

/-- `Phone.__init__`: raises unless the value has length 10 and
`value.isdigit()`; stores the value unchanged. -/
def validatePhone (s : String) : Except PhoneErr String :=
  if s.length != 10 || !pyStrIsDigit s then .error .invalidPhone else .ok s

/-- The errors `Birthday.__init__` raises: a `strptime` failure, or the
date lying in the future. -/
inductive BirthdayErr where
  | invalidDateFormat
  | futureDate
  deriving DecidableEq, Repr

/-- `Birthday.__init__` against an explicit current date `today`
(`date.today()` in the source): parse strictly via `strptime("%d.%m.%Y")`,
reject dates after `today`, and store `birthday.strftime("%d.%m.%Y")`. -/
def validateBirthday (today : Date) (s : String) : Except BirthdayErr String :=
  match parseDMY s with
  | none => .error .invalidDateFormat
  | some d => if dateLt today d then .error .futureDate else .ok (formatDMY d)

instance {ε α : Type} [DecidableEq ε] [DecidableEq α] : DecidableEq (Except ε α) :=
  fun x y =>
    match x, y with
    | .ok a, .ok b =>
      if h : a = b then .isTrue (congrArg Except.ok h)
      else .isFalse fun hh => h (Except.ok.inj hh)
    | .error a, .error b =>
      if h : a = b then .isTrue (congrArg Except.error h)
      else .isFalse fun hh => h (Except.error.inj hh)
    | .ok _, .error _ => .isFalse fun hh => Except.noConfusion hh
    | .error _, .ok _ => .isFalse fun hh => Except.noConfusion hh

/-! ## `Record` (`src/main.py` lines 44-72)

A `Record` owns a name, an ordered list of phones and an optional
birthday.  `Phone` objects carry only their `value` string, so phones are
modelled as their value strings; `Record.birthday` stores the validated
`Birthday.value` string. -/

structure Record where
  name : String
  phones : List String
  birthday : Option String
  deriving DecidableEq, Repr

namespace Record

/-- `Record.add_phone`: construct a `Phone` (validating) and append it;
a `ValueError` from validation propagates and the record is untouched. -/
def add_phone (r : Record) (phone : String) : Except PhoneErr Record :=
  (validatePhone phone).map fun v => { r with phones := r.phones ++ [v] }

/-- One step of `Record.remove_phone`'s `for p in self.phones` loop, with
the iterator's current index `i` made explicit.  Python's list iterator
yields `phones[i]` and then advances to `i + 1`; `list.remove(p)` deletes
the first element `== p`, which for `Phone` objects (no `__eq__`, distinct
instances) is position `i` itself — so after a removal the element that
slid into position `i` is never examined. -/
def removeLoop (phone : String) (ps : List String) (i : Nat) : List String :=
  if h : i < ps.length then
    if ps.get ⟨i, h⟩ == phone then removeLoop phone (ps.eraseIdx i) (i + 1)
    else removeLoop phone ps (i + 1)
  else ps
termination_by ps.length - i
decreasing_by
  · have := ps.length_eraseIdx_of_lt h; omega
  · omega

/-- `Record.remove_phone`: the mutating-while-iterating loop over phones. -/
def remove_phone (r : Record) (phone : String) : Record :=
  { r with phones := removeLoop phone r.phones 0 }

/-- First-match replacement: `some` of the updated list when some element
equals `old_phone`, `none` when the scan falls through. -/
def replaceFirst (old_phone v : String) : List String → Option (List String)
  | [] => none
  | p :: ps =>
    if p == old_phone then some (v :: ps)
    else (replaceFirst old_phone v ps).map (p :: ·)

/-- The errors `Record.edit_phone` raises. -/
inductive EditErr where
  | invalidPhone
  | phoneNotFound (old_phone : String)
  deriving DecidableEq, Repr

/-- `Record.edit_phone`: validate the new number first (raising before any
mutation), then replace the first phone equal to `old_phone`, or raise
`Phone ... not found` when there is none. -/
def edit_phone (r : Record) (old_phone new_phone : String) : Except EditErr Record :=
  match validatePhone new_phone with
  | .error _ => .error .invalidPhone
  | .ok v =>
    match replaceFirst old_phone v r.phones with
    | some ps => .ok { r with phones := ps }
    | none => .error (.phoneNotFound old_phone)

end Record

/-! ## `AddressBook` (`src/main.py` lines 75-130)

A `UserDict` keyed by name.  Python dicts preserve insertion order and an
assignment to an existing key overwrites the value in place, so the book
is modelled as an association list with exactly that update rule. -/

/-- The address book: name-keyed records in insertion order. -/
abbrev AddressBook := List (String × Record)

namespace AddressBook

/-- `AddressBook.add_record`: `self.data[record.name.value] = record` —
overwrite in place when the key exists, append otherwise. -/
def add_record (book : AddressBook) (r : Record) : AddressBook :=
  if book.any (·.1 == r.name) then
    book.map fun kv => if kv.1 == r.name then (kv.1, r) else kv
  else book ++ [(r.name, r)]

/-- `AddressBook.find`: `self.data.get(name)`. -/
def find (book : AddressBook) (name : String) : Option Record :=
  (book.find? (·.1 == name)).map (·.2)

/-- `AddressBook.date_to_string`: `date.strftime("%d.%m.%Y")`. -/
def date_to_string (d : Date) : String :=
  formatDMY d

/-- `AddressBook.find_next_weekday`: `days_ahead = weekday - start_date.weekday()`
(a possibly negative `int`), bumped by 7 when `≤ 0`, then added to the date. -/
def find_next_weekday (start_date : Date) (wd : Nat) : Date :=
  let days_ahead : Int := (wd : Int) - (weekday start_date : Int)
  let days_ahead : Int := if days_ahead ≤ 0 then days_ahead + 7 else days_ahead
  addDays start_date days_ahead.toNat

/-- `AddressBook.adjust_for_weekend`: weekend dates (weekday 5 or 6) are
moved to the next Monday via `find_next_weekday(birthday, 0)`. -/
def adjust_for_weekend (birthday : Date) : Date :=
  if 5 ≤ weekday birthday then find_next_weekday birthday 0 else birthday

/-- One output dict `{"name": ..., "congratulation_date": ...}` of
`get_upcoming_birthdays`. -/
structure Entry where
  name : String
  congratulation_date : String
  deriving DecidableEq, Repr

/-- The loop body of `get_upcoming_birthdays` for one record: the entries
it appends (`[]` or a singleton), or `none` when a `ValueError` escapes —
from `strptime` on the stored birthday string, or from either
`date.replace(year=...)` call constructing an invalid or out-of-range
date (e.g. Feb 29 mapped onto a non-leap year). -/
def processRecord (today : Date) (days : Nat) (r : Record) : Option (List Entry) :=
  match r.birthday with
  | none => some []
  | some s =>
    match parseDMY s with
    | none => none
    | some birthday_date =>
      let emit : Date → List Entry := fun birthday_this_year =>
        let delta : Int := (ord birthday_this_year : Int) - (ord today : Int)
        if 0 ≤ delta ∧ delta ≤ (days : Int) then
          [⟨r.name, date_to_string (adjust_for_weekend birthday_this_year)⟩]
        else []
      let c1 : Date := ⟨today.year, birthday_date.month, birthday_date.day⟩
      if c1.pyValid then
        if dateLt c1 today then
          let c2 : Date := ⟨today.year + 1, birthday_date.month, birthday_date.day⟩
          if c2.pyValid then some (emit c2) else none
        else some (emit c1)
      else none

/-- The `for record in self.data.values()` loop of `get_upcoming_birthdays`,
collecting entries in iteration order; `none` aborts everything, as the
uncaught `ValueError` does. -/
def upcomingLoop (today : Date) (days : Nat) : List Record → Option (List Entry)
  | [] => some []
  | r :: rs => do
    let es ← processRecord today days r
    let rest ← upcomingLoop today days rs
    pure (es ++ rest)

/-- `AddressBook.get_upcoming_birthdays`, with `date.today()` passed
explicitly as `today`. -/
def get_upcoming_birthdays (book : AddressBook) (today : Date) (days : Nat := 7) :
    Option (List Entry) :=
  upcomingLoop today days (book.map (·.2))

end AddressBook

/-! ## Calendar arithmetic lemmas -/

theorem isLeap_iff (y : Nat) :
    isLeap y = true ↔ ((y % 4 = 0 ∧ y % 100 ≠ 0) ∨ y % 400 = 0) := by
  simp [isLeap]

theorem succ_div_eq (k m : Nat) :
    (k + 1) / m = k / m + (if (k + 1) % m = 0 then 1 else 0) := by
  rw [Nat.succ_div]
  by_cases h : m ∣ (k + 1)
  · rw [if_pos h, if_pos (Nat.dvd_iff_mod_eq_zero.mp h)]
  · rw [if_neg h, if_neg (fun hh => h (Nat.dvd_iff_mod_eq_zero.mpr hh))]

theorem daysBeforeYear_succ (k : Nat) :
    daysBeforeYear (k + 1) = daysBeforeYear k + 365 + (if isLeap (k + 1) then 1 else 0) := by
  have h4 := succ_div_eq k 4
  have h100 := succ_div_eq k 100
  have h400 := succ_div_eq k 400
  simp only [isLeap_iff]
  unfold daysBeforeYear
  by_cases m4 : (k + 1) % 4 = 0 <;> by_cases m100 : (k + 1) % 100 = 0 <;>
    by_cases m400 : (k + 1) % 400 = 0 <;>
    first
      | rw [if_pos m4] at h4
      | rw [if_neg m4] at h4
  all_goals first
    | rw [if_pos m100] at h100
    | rw [if_neg m100] at h100
  all_goals first
    | rw [if_pos m400] at h400
    | rw [if_neg m400] at h400
  all_goals first
    | (rw [if_pos (show ((k + 1) % 4 = 0 ∧ (k + 1) % 100 ≠ 0) ∨ (k + 1) % 400 = 0 by omega)]
       omega)
    | (rw [if_neg (show ¬(((k + 1) % 4 = 0 ∧ (k + 1) % 100 ≠ 0) ∨ (k + 1) % 400 = 0) by omega)]
       omega)

theorem daysBeforeMonth_step (y m : Nat) (h1 : 1 ≤ m) (h2 : m < 12) :
    daysBeforeMonth y (m + 1) = daysBeforeMonth y m + daysInMonth y m := by
  interval_cases m <;> cases hL : isLeap y <;>
    simp [daysBeforeMonth, daysInMonth, hL]

theorem ord_nextDay (d : Date) (hv : d.Valid) : ord (nextDay d) = ord d + 1 := by
  obtain ⟨hy, hm1, hm2, hd1, hd2⟩ := hv
  unfold nextDay
  split
  · simp only [ord]; omega
  · split
    · next hdim hm12 =>
      have key := daysBeforeMonth_step d.year d.month hm1 hm12
      simp only [ord]
      omega
    · next hdim hm12 =>
      have hme : d.month = 12 := by omega
      have hde : d.day = 31 := by
        simp only [hme, daysInMonth] at hdim hd2; omega
      have hstep := daysBeforeYear_succ (d.year - 1)
      rw [Nat.sub_add_cancel hy] at hstep
      simp only [ord, hme, hde, daysBeforeMonth, daysInMonth, Nat.add_sub_cancel]
      cases hL : isLeap d.year <;> simp only [hL, if_true, if_false] at hstep ⊢ <;> omega

theorem daysInMonth_pos (y m : Nat) (h1 : 1 ≤ m) (h2 : m ≤ 12) :
    1 ≤ daysInMonth y m := by
  interval_cases m <;> cases hL : isLeap y <;> simp [daysInMonth, hL]

theorem valid_nextDay (d : Date) (hv : d.Valid) : (nextDay d).Valid := by
  obtain ⟨hy, hm1, hm2, hd1, hd2⟩ := hv
  unfold nextDay
  split
  · next h => exact ⟨hy, hm1, hm2, Nat.le_add_left 1 d.day, h⟩
  · split
    · next hdim hm12 =>
      have hpos := daysInMonth_pos d.year (d.month + 1) (by omega) (by omega)
      exact ⟨hy, Nat.le_add_left 1 d.month, hm12, le_refl 1, hpos⟩
    · have hpos : (1 : Nat) ≤ daysInMonth (d.year + 1) 1 := by simp [daysInMonth]
      exact ⟨Nat.le_add_left 1 d.year, le_refl 1, show (1:Nat) ≤ 12 by omega, le_refl 1, hpos⟩

theorem valid_addDays (n : Nat) (d : Date) (hv : d.Valid) : (addDays d n).Valid := by
  induction n generalizing d with
  | zero => exact hv
  | succ n ih => exact ih (nextDay d) (valid_nextDay d hv)

theorem ord_addDays (n : Nat) (d : Date) (hv : d.Valid) : ord (addDays d n) = ord d + n := by
  induction n generalizing d with
  | zero => rfl
  | succ n ih =>
    have h1 := ih (nextDay d) (valid_nextDay d hv)
    have h2 := ord_nextDay d hv
    simp only [addDays] at h1 ⊢
    omega

theorem find_next_weekday_zero (d : Date) :
    AddressBook.find_next_weekday d 0 = addDays d (7 - weekday d) := by
  have hw : weekday d ≤ 6 := by unfold weekday; omega
  have hle : ((0 : Nat) : Int) - (weekday d : Int) ≤ 0 := by omega
  simp only [AddressBook.find_next_weekday]
  rw [if_pos hle]
  congr 1
  omega

/-! ## Claim theorems -/

/-- C2: on every valid calendar date, the weekend adjustment of
`get_upcoming_birthdays` sends a Saturday or Sunday (weekday 5 or 6) to
the next Monday strictly after it — a Monday, strictly later, within 7
days, and minimal among strictly later Mondays — and leaves every
Monday-through-Friday date unchanged. -/
theorem claim_C2 (d : Date) (hv : d.Valid) :
    (5 ≤ weekday d →
      weekday (AddressBook.adjust_for_weekend d) = 0 ∧
      ord d < ord (AddressBook.adjust_for_weekend d) ∧
      ord (AddressBook.adjust_for_weekend d) ≤ ord d + 7 ∧
      ∀ e : Date, weekday e = 0 → ord d < ord e →
        ord (AddressBook.adjust_for_weekend d) ≤ ord e) ∧
    (weekday d < 5 → AddressBook.adjust_for_weekend d = d) := by
  constructor
  · intro h5
    have hfnw := find_next_weekday_zero d
    have hord := ord_addDays (7 - weekday d) d hv
    unfold AddressBook.adjust_for_weekend
    rw [if_pos h5, hfnw]
    unfold weekday at h5 hord ⊢
    refine ⟨?_, ?_, ?_, ?_⟩
    · rw [hord]; omega
    · rw [hord]; omega
    · rw [hord]; omega
    · intro e hwe hlt
      rw [hord]
      omega
  · intro hlt
    unfold AddressBook.adjust_for_weekend
    rw [if_neg (by omega)]

theorem claim_C2_witness :
    Date.Valid ⟨2024, 6, 15⟩ ∧ 5 ≤ weekday ⟨2024, 6, 15⟩ ∧
      weekday (AddressBook.adjust_for_weekend ⟨2024, 6, 15⟩) = 0 :=
  ⟨by decide, by decide, ((claim_C2 ⟨2024, 6, 15⟩ (by decide)).1 (by decide)).1⟩

/-- C1: in the spec's concrete scenario with today = 2024-06-10 (a
Monday), the record "Ann" with birthday "08.06.1990" is excluded and the
record "Bob" with birthday "15.06.1985" is included with congratulation
date "17.06.2024" (Saturday 15.06.2024 shifted to the next Monday). -/
theorem claim_C1 :
    weekday ⟨2024, 6, 10⟩ = 0 ∧
    AddressBook.get_upcoming_birthdays
        [("Ann", ⟨"Ann", [], some "08.06.1990"⟩), ("Bob", ⟨"Bob", [], some "15.06.1985"⟩)]
        ⟨2024, 6, 10⟩ 7
      = some [⟨"Bob", "17.06.2024"⟩] := by
  exact ⟨rfl, rfl⟩

theorem validatePhone_char_iff (s : String) :
    validatePhone s = .ok s ↔ (s.length = 10 ∧ ∀ c ∈ s.data, pyCharIsDigit c = true) := by
  unfold validatePhone
  rcases hcond : (s.length != 10 || !pyStrIsDigit s) with _ | _
  · simp only [Bool.false_eq_true, if_false]
    simp only [Bool.or_eq_false_iff, bne_eq_false_iff_eq, Bool.not_eq_false',
      pyStrIsDigit, Bool.and_eq_true, Bool.not_eq_true', List.all_eq_true] at hcond
    exact ⟨fun _ => ⟨hcond.1, hcond.2.2⟩, fun _ => by trivial⟩
  · rw [if_pos rfl]
    constructor
    · intro h; cases h
    · rintro ⟨h10, hall⟩
      exfalso
      have hne : s.data.isEmpty = false := by
        rcases hd : s.data with _ | ⟨c, cs⟩
        · have h10' : s.data.length = 10 := h10
          rw [hd] at h10'
          cases h10'
        · rfl
      have hdig : pyStrIsDigit s = true := by
        unfold pyStrIsDigit
        rw [hne]
        simp only [Bool.not_false, Bool.true_and, List.all_eq_true]
        exact hall
      have hfalse : (s.length != 10 || !pyStrIsDigit s) = false := by
        simp [h10, hdig]
      rw [hfalse] at hcond
      cases hcond

/-- C4 counterexample: the superscript-two character passes Python's
`str.isdigit`, so the ten-character string "123456789²" is accepted by
`Phone.__init__` although its last character is not a decimal digit 0-9,
contradicting the claim that such strings fail with `InvalidPhone`. -/
theorem claim_C4_cex :
    validatePhone "123456789²" = .ok "123456789²" ∧
      ¬(∀ c ∈ ("123456789²" : String).data, '0' ≤ c ∧ c ≤ '9') := by
  exact ⟨rfl, by decide⟩

/-- C4 (amended): `validatePhone` succeeds, returning the input unchanged,
iff the input is exactly 10 characters and every character satisfies
Python\'s `str.isdigit` — which also accepts non-ASCII Unicode digit
characters such as \'²\', not only the decimal digits 0-9; in every other
case it fails with `InvalidPhone`. -/
theorem claim_C4 (s : String) :
    (validatePhone s = .ok s ↔ (s.length = 10 ∧ ∀ c ∈ s.data, pyCharIsDigit c = true)) ∧
    (¬(s.length = 10 ∧ ∀ c ∈ s.data, pyCharIsDigit c = true) →
      validatePhone s = .error .invalidPhone) := by
  refine ⟨validatePhone_char_iff s, fun hno => ?_⟩
  rcases hv : validatePhone s with e | v
  · cases e
    rfl
  · exfalso
    apply hno
    apply (validatePhone_char_iff s).mp
    have hvs : v = s := by
      unfold validatePhone at hv
      split at hv
      · cases hv
      · cases hv
        rfl
    rw [hvs] at hv
    exact hv

theorem claim_C4_witness :
    validatePhone "0123456789" = .ok "0123456789" :=
  (claim_C4 "0123456789").1.mpr (by decide)

theorem validatePhone_ok_self (s : String) (h : (validatePhone s).isOk = true) :
    validatePhone s = .ok s := by
  unfold validatePhone at h ⊢
  split
  · next hc =>
    rw [if_pos hc] at h
    simp [Except.isOk, Except.toBool] at h
  · rfl

/-- C9: `add_phone` never deduplicates — adding the same valid number
twice appends it twice, leaving two entries with that value. -/
theorem claim_C9 (r : Record) (p : String) (h : (validatePhone p).isOk = true) :
    ∃ r1, r.add_phone p = .ok r1 ∧
      ∃ r2, r1.add_phone p = .ok r2 ∧ r2.phones = r.phones ++ [p, p] := by
  have hok := validatePhone_ok_self p h
  refine ⟨{ r with phones := r.phones ++ [p] }, ?_,
    { r with phones := (r.phones ++ [p]) ++ [p] }, ?_, by simp⟩
  · unfold Record.add_phone
    rw [hok]
    rfl
  · unfold Record.add_phone
    rw [hok]
    rfl

theorem claim_C9_witness :
    ∃ r1, Record.add_phone ⟨"A", [], none⟩ "0123456789" = .ok r1 ∧
      ∃ r2, r1.add_phone "0123456789" = .ok r2 ∧
        r2.phones = ([] : List String) ++ ["0123456789", "0123456789"] :=
  claim_C9 ⟨"A", [], none⟩ "0123456789" (by decide)

theorem replaceFirst_of_split (o v : String) (rest : List String) :
    ∀ l : List String, o ∉ l →
      Record.replaceFirst o v (l ++ o :: rest) = some (l ++ v :: rest)
  | [], _ => by simp [Record.replaceFirst]
  | p :: ps, hno => by
    have h1 : o ≠ p := fun h => hno (h ▸ List.mem_cons_self p ps)
    have h2 : o ∉ ps := fun h => hno (List.mem_cons_of_mem p h)
    have hne : (p == o) = false := beq_eq_false_iff_ne.mpr fun h => h1 h.symm
    show Record.replaceFirst o v (p :: (ps ++ o :: rest)) = some (p :: (ps ++ v :: rest))
    simp only [Record.replaceFirst, hne, Bool.false_eq_true, if_false]
    rw [replaceFirst_of_split o v rest ps h2]
    rfl

theorem replaceFirst_of_not_mem (o v : String) :
    ∀ ps : List String, o ∉ ps → Record.replaceFirst o v ps = none
  | [], _ => rfl
  | p :: ps, hno => by
    have h1 : o ≠ p := fun h => hno (h ▸ List.mem_cons_self p ps)
    have h2 : o ∉ ps := fun h => hno (List.mem_cons_of_mem p h)
    have hne : (p == o) = false := beq_eq_false_iff_ne.mpr fun h => h1 h.symm
    simp only [Record.replaceFirst, hne, Bool.false_eq_true, if_false]
    rw [replaceFirst_of_not_mem o v ps h2]
    rfl

/-- C5: `edit_phone` validates the new number before any mutation — an
invalid new number fails with `InvalidPhone` (returning no modified
record, so the phone list is untouched); with a valid new number, the
first stored phone equal to `old_phone` is replaced by the new value, and
if none matches it fails with `Phone <old> not found`, again with no
mutation. -/
theorem claim_C5 (r : Record) (old_phone new_phone : String) :
    ((validatePhone new_phone).isOk = false →
      r.edit_phone old_phone new_phone = .error .invalidPhone) ∧
    (∀ l rest : List String, (validatePhone new_phone).isOk = true →
      r.phones = l ++ old_phone :: rest → old_phone ∉ l →
      r.edit_phone old_phone new_phone = .ok { r with phones := l ++ new_phone :: rest }) ∧
    ((validatePhone new_phone).isOk = true → old_phone ∉ r.phones →
      r.edit_phone old_phone new_phone = .error (.phoneNotFound old_phone)) := by
  refine ⟨?_, ?_, ?_⟩
  · intro hbad
    unfold Record.edit_phone
    rcases hv : validatePhone new_phone with e | v
    · cases e
      rfl
    · rw [hv] at hbad
      simp [Except.isOk, Except.toBool] at hbad
  · intro l rest hok hsplit hno
    have hvp := validatePhone_ok_self new_phone hok
    unfold Record.edit_phone
    rw [hvp, hsplit]
    dsimp only
    rw [replaceFirst_of_split old_phone new_phone rest l hno]
  · intro hok hno
    have hvp := validatePhone_ok_self new_phone hok
    unfold Record.edit_phone
    rw [hvp]
    dsimp only
    rw [replaceFirst_of_not_mem old_phone new_phone r.phones hno]

theorem claim_C5_witness :
    Record.edit_phone ⟨"A", ["0000000000"], none⟩ "0000000000" "0123456789"
      = .ok ⟨"A", ["0123456789"], none⟩ :=
  (claim_C5 ⟨"A", ["0000000000"], none⟩ "0000000000" "0123456789").2.1 [] []
    (by decide) rfl (by decide)

theorem find_overwrite (r : Record) :
    ∀ book : List (String × Record), book.any (·.1 == r.name) = true →
      (List.find? (·.1 == r.name)
          (book.map fun kv => if kv.1 == r.name then (kv.1, r) else kv)).map (·.2)
        = some r
  | [], h => by cases h
  | kv :: bs, h => by
    by_cases hk : (kv.1 == r.name) = true
    · simp only [List.map_cons, if_pos hk, List.find?]
      rw [hk]
      rfl
    · have hkf : (kv.1 == r.name) = false := (Bool.not_eq_true _) ▸ hk
      have hb : bs.any (·.1 == r.name) = true := by
        simp only [List.any_cons, hkf, Bool.false_or] at h
        exact h
      simp only [List.map_cons, if_neg hk, List.find?]
      rw [hkf]
      exact find_overwrite r bs hb

theorem find_append_fresh (r : Record) :
    ∀ book : List (String × Record), book.any (·.1 == r.name) = false →
      (List.find? (·.1 == r.name) (book ++ [(r.name, r)])).map (·.2) = some r
  | [], _ => by
    rw [List.nil_append]
    simp only [List.find?]
    rw [beq_self_eq_true r.name]
    rfl
  | kv :: bs, h => by
    have hk : (kv.1 == r.name) = false := by
      simp only [List.any_cons, Bool.or_eq_false_iff] at h
      exact h.1
    have hb : bs.any (·.1 == r.name) = false := by
      simp only [List.any_cons, Bool.or_eq_false_iff] at h
      exact h.2
    show (List.find? (·.1 == r.name) (kv :: (bs ++ [(r.name, r)]))).map (·.2) = some r
    simp only [List.find?]
    rw [hk]
    exact find_append_fresh r bs hb

/-- C6: `add_record` stores the record wholesale under its name key —
after the call, `find` on that name returns exactly the new record (its
phone list and birthday are the new record's; nothing from a previously
stored record under the same name survives or is merged). -/
theorem claim_C6 (book : AddressBook) (r : Record) :
    AddressBook.find (AddressBook.add_record book r) r.name = some r := by
  unfold AddressBook.add_record AddressBook.find
  by_cases hmem : book.any (·.1 == r.name) = true
  · rw [if_pos hmem]
    exact find_overwrite r book hmem
  · rw [if_neg hmem]
    exact find_append_fresh r book (Bool.not_eq_true _ ▸ hmem)

/-- Modelled from the spec's words ("removes the first phone entry whose
stored value equals raw"), for comparison with the implementation. -/
def removeFirstSpec (phone : String) (ps : List String) : List String :=
  ps.erase phone

/-- Modelled from the spec's words ("removes all phone entries whose
stored value equals raw"), for comparison with the implementation. -/
def removeAllSpec (phone : String) (ps : List String) : List String :=
  ps.filter (· != phone)

theorem remove_phone_triple :
    Record.remove_phone ⟨"A", ["1111111111", "1111111111", "1111111111"], none⟩ "1111111111"
      = ⟨"A", ["1111111111"], none⟩ := by
  unfold Record.remove_phone
  simp [Record.removeLoop, List.eraseIdx]

/-- C8 counterexample: with three stored entries equal to the target,
`remove_phone` removes the first and the third but keeps the middle one —
it agrees with neither "remove the first match" (which would keep two)
nor "remove all matches" (which would keep none). -/
theorem claim_C8_cex :
    (Record.remove_phone ⟨"A", ["1111111111", "1111111111", "1111111111"], none⟩
        "1111111111").phones
      ≠ removeFirstSpec "1111111111" ["1111111111", "1111111111", "1111111111"] ∧
    (Record.remove_phone ⟨"A", ["1111111111", "1111111111", "1111111111"], none⟩
        "1111111111").phones
      ≠ removeAllSpec "1111111111" ["1111111111", "1111111111", "1111111111"] := by
  rw [remove_phone_triple]
  exact ⟨by decide, by decide⟩

theorem removeLoop_no_match (phone : String) (ps : List String) (hno : phone ∉ ps) :
    ∀ i, Record.removeLoop phone ps i = ps := by
  have key : ∀ n i, ps.length - i ≤ n → Record.removeLoop phone ps i = ps := by
    intro n
    induction n with
    | zero =>
      intro i hle
      rw [Record.removeLoop.eq_def]
      rw [dif_neg (by omega)]
    | succ n ih =>
      intro i hle
      rw [Record.removeLoop.eq_def]
      by_cases hlt : i < ps.length
      · rw [dif_pos hlt]
        have hget : ps.get ⟨i, hlt⟩ ≠ phone :=
          fun h => hno (h ▸ List.get_mem ps i hlt)
        have hbe : (ps.get ⟨i, hlt⟩ == phone) = false := beq_eq_false_iff_ne.mpr hget
        simp only [hbe, Bool.false_eq_true, if_false]
        exact ih (i + 1) (by omega)
      · rw [dif_neg hlt]
  exact fun i => key (ps.length - i) i (le_refl _)

/-- C8 (amended): `remove_phone` removes matching entries via Python's
index-advancing iteration over the list it is mutating, which skips the
element that slides into a removed position — so with three consecutive
equal entries it deletes the first and third and keeps the middle one
(neither "remove the first" nor "remove all") — and when no stored phone
equals the argument it is a no-op that raises no error. -/
theorem claim_C8 (r : Record) (phone : String) :
    (phone ∉ r.phones → r.remove_phone phone = r) ∧
    Record.remove_phone ⟨"A", ["1111111111", "1111111111", "1111111111"], none⟩ "1111111111"
      = ⟨"A", ["1111111111"], none⟩ := by
  refine ⟨fun hno => ?_, remove_phone_triple⟩
  unfold Record.remove_phone
  rw [removeLoop_no_match phone r.phones hno 0]

theorem claim_C8_witness :
    Record.remove_phone ⟨"B", ["0000000000"], none⟩ "9999999999"
      = ⟨"B", ["0000000000"], none⟩ :=
  (claim_C8 ⟨"B", ["0000000000"], none⟩ "9999999999").1 (by decide)

/-- C7: against an explicit current date, `Birthday.__init__` rejects
every parseable date strictly after `today` with the future-date error,
and accepts today's own date and every parseable earlier date. -/
theorem claim_C7 (today : Date) (s : String) (d : Date) (hp : parseDMY s = some d) :
    (dateLt today d = true → validateBirthday today s = .error .futureDate) ∧
    (dateLt today d = false → validateBirthday today s = .ok (formatDMY d)) := by
  unfold validateBirthday
  rw [hp]
  dsimp only
  constructor
  · intro h
    rw [if_pos h]
  · intro h
    rw [if_neg (fun hc => by rw [h] at hc; cases hc)]

theorem claim_C7_witness :
    validateBirthday ⟨2024, 6, 10⟩ "11.06.2024" = .error .futureDate ∧
    validateBirthday ⟨2024, 6, 10⟩ "10.06.2024" = .ok (formatDMY ⟨2024, 6, 10⟩) :=
  ⟨(claim_C7 ⟨2024, 6, 10⟩ "11.06.2024" ⟨2024, 6, 11⟩ rfl).1 rfl,
   (claim_C7 ⟨2024, 6, 10⟩ "10.06.2024" ⟨2024, 6, 10⟩ rfl).2 rfl⟩

theorem upcomingLoop_none_of_mem (today : Date) (days : Nat) (r : Record)
    (hfail : AddressBook.processRecord today days r = none) :
    ∀ rs : List Record, r ∈ rs → AddressBook.upcomingLoop today days rs = none
  | r' :: rs', hmem => by
    rcases List.mem_cons.mp hmem with he | hm
    · unfold AddressBook.upcomingLoop
      rw [← he, hfail]
      rfl
    · have hrec := upcomingLoop_none_of_mem today days r hfail rs' hm
      rcases hpr : AddressBook.processRecord today days r' with _ | es
      · simp [AddressBook.upcomingLoop, hpr]
      · simp [AddressBook.upcomingLoop, hpr, hrec]

/-- C10 (implicit): `get_upcoming_birthdays` is not total over validly
stored birthdays — when a stored birthday is Feb 29 of a leap year and
the current year is not a leap year, `birthday_date.replace(year=today.year)`
constructs Feb 29 of a non-leap year, the `ValueError` escapes, and the
whole query fails instead of returning a list. -/
theorem claim_C10 (today : Date) (book : AddressBook) (key s : String) (r : Record)
    (bd : Date) (hleap : isLeap today.year = false) (hmem : (key, r) ∈ book)
    (hb : r.birthday = some s) (hp : parseDMY s = some bd)
    (hmo : bd.month = 2) (hda : bd.day = 29) :
    AddressBook.get_upcoming_birthdays book today 7 = none := by
  have hfail : AddressBook.processRecord today 7 r = none := by
    unfold AddressBook.processRecord
    rw [hb]
    dsimp only
    rw [hp]
    dsimp only
    have hnv : ¬ (⟨today.year, bd.month, bd.day⟩ : Date).pyValid := by
      rintro ⟨⟨_, _, _, _, hle⟩, _⟩
      simp only [hmo, hda, daysInMonth, hleap, Bool.false_eq_true, if_false] at hle
      omega
    rw [if_neg hnv]
  unfold AddressBook.get_upcoming_birthdays
  exact upcomingLoop_none_of_mem today 7 r hfail (book.map (·.2))
    (List.mem_map_of_mem (·.2) hmem)

theorem claim_C10_witness :
    AddressBook.get_upcoming_birthdays
        [("Kim", ⟨"Kim", [], some "29.02.2020"⟩)] ⟨2023, 3, 15⟩ 7 = none :=
  claim_C10 ⟨2023, 3, 15⟩ [("Kim", ⟨"Kim", [], some "29.02.2020"⟩)] "Kim" "29.02.2020"
    ⟨"Kim", [], some "29.02.2020"⟩ ⟨2020, 2, 29⟩ rfl (List.mem_singleton.mpr rfl)
    rfl rfl rfl rfl

theorem daysInMonth_le_31 (y m : Nat) : daysInMonth y m ≤ 31 := by
  unfold daysInMonth
  split <;> first | omega | (split <;> omega)

theorem digitChar_spec (n : Nat) (h : n < 10) :
    isAsciiDigit (digitChar n) = true ∧ digitVal (digitChar n) = n ∧ digitChar n ≠ '.' := by
  interval_cases n <;> exact ⟨rfl, rfl, by decide⟩

theorem splitDots_shape (a1 a2 b1 b2 c1 c2 c3 c4 : Char)
    (n1 : a1 ≠ '.') (n2 : a2 ≠ '.') (n3 : b1 ≠ '.') (n4 : b2 ≠ '.')
    (n5 : c1 ≠ '.') (n6 : c2 ≠ '.') (n7 : c3 ≠ '.') (n8 : c4 ≠ '.') :
    splitDots [a1, a2, '.', b1, b2, '.', c1, c2, c3, c4]
      = [[a1, a2], [b1, b2], [c1, c2, c3, c4]] := by
  simp [splitDots, n1, n2, n3, n4, n5, n6, n7, n8]

theorem dayField_pad2 (n : Nat) (h1 : 1 ≤ n) (h31 : n ≤ 31) :
    dayField (pad2 n) = some n := by
  obtain ⟨hq1, hq2, _⟩ := digitChar_spec (n / 10 % 10) (by omega)
  obtain ⟨hr1, hr2, _⟩ := digitChar_spec (n % 10) (by omega)
  have hval : 10 * (n / 10 % 10) + n % 10 = n := by omega
  simp only [pad2, dayField, hq1, hq2, hr1, hr2, Bool.and_self]
  rw [hval]
  have hcond : (decide (1 ≤ n) && decide (n ≤ 31)) = true := by simp [h1, h31]
  rw [hcond]
  rfl

theorem monthField_pad2 (n : Nat) (h1 : 1 ≤ n) (h12 : n ≤ 12) :
    monthField (pad2 n) = some n := by
  obtain ⟨hq1, hq2, _⟩ := digitChar_spec (n / 10 % 10) (by omega)
  obtain ⟨hr1, hr2, _⟩ := digitChar_spec (n % 10) (by omega)
  have hval : 10 * (n / 10 % 10) + n % 10 = n := by omega
  simp only [pad2, monthField, hq1, hq2, hr1, hr2, Bool.and_self]
  rw [hval]
  have hcond : (decide (1 ≤ n) && decide (n ≤ 12)) = true := by simp [h1, h12]
  rw [hcond]
  rfl

theorem yearField_pad4 (n : Nat) (h : n ≤ 9999) :
    yearField (pad4 n) = some n := by
  obtain ⟨h11, h12, _⟩ := digitChar_spec (n / 1000 % 10) (by omega)
  obtain ⟨h21, h22, _⟩ := digitChar_spec (n / 100 % 10) (by omega)
  obtain ⟨h31, h32, _⟩ := digitChar_spec (n / 10 % 10) (by omega)
  obtain ⟨h41, h42, _⟩ := digitChar_spec (n % 10) (by omega)
  have hval : 1000 * (n / 1000 % 10) + 100 * (n / 100 % 10) + 10 * (n / 10 % 10) + n % 10 = n := by
    omega
  simp only [pad4, yearField, h11, h12, h21, h22, h31, h32, h41, h42, Bool.and_self]
  rw [hval]
  rfl

theorem parseDMY_formatDMY (d : Date) (hv : d.Valid) (h9999 : d.year ≤ 9999) :
    parseDMY (formatDMY d) = some d := by
  obtain ⟨hy1, hm1, hm2, hd1, hd2⟩ := hv
  have hd31 : d.day ≤ 31 := le_trans hd2 (daysInMonth_le_31 d.year d.month)
  obtain ⟨_, _, nd1⟩ := digitChar_spec (d.day / 10 % 10) (by omega)
  obtain ⟨_, _, nd2⟩ := digitChar_spec (d.day % 10) (by omega)
  obtain ⟨_, _, nm1⟩ := digitChar_spec (d.month / 10 % 10) (by omega)
  obtain ⟨_, _, nm2⟩ := digitChar_spec (d.month % 10) (by omega)
  obtain ⟨_, _, ny1⟩ := digitChar_spec (d.year / 1000 % 10) (by omega)
  obtain ⟨_, _, ny2⟩ := digitChar_spec (d.year / 100 % 10) (by omega)
  obtain ⟨_, _, ny3⟩ := digitChar_spec (d.year / 10 % 10) (by omega)
  obtain ⟨_, _, ny4⟩ := digitChar_spec (d.year % 10) (by omega)
  have hsplit : splitDots (formatDMY d).data = [pad2 d.day, pad2 d.month, pad4 d.year] :=
    splitDots_shape _ _ _ _ _ _ _ _ nd1 nd2 nm1 nm2 ny1 ny2 ny3 ny4
  unfold parseDMY
  rw [hsplit]
  dsimp only
  rw [dayField_pad2 d.day hd1 hd31, monthField_pad2 d.month hm1 hm2,
    yearField_pad4 d.year h9999]
  dsimp only
  have hval : (⟨d.year, d.month, d.day⟩ : Date).pyValid :=
    ⟨⟨hy1, hm1, hm2, hd1, hd2⟩, h9999⟩
  rw [if_pos hval]

/-- The strict zero-padded `DD.MM.YYYY` shape: the canonical rendering of
some constructible calendar date (two-digit day and month, four-digit
year). -/
def strictDMY (s : String) : Prop :=
  ∃ d : Date, d.Valid ∧ d.year ≤ 9999 ∧ s = formatDMY d

theorem formatDMY_length (d : Date) : (formatDMY d).length = 10 := rfl

/-- C3 counterexample: "8.6.1990" is not in strict zero-padded
`DD.MM.YYYY` form (it has 8 characters, not 10), yet `Birthday.__init__`
accepts it — `strptime`'s `%d` and `%m` tolerate missing zero-padding —
and stores the canonical re-rendering "08.06.1990", which is not the
input string. -/
theorem claim_C3_cex :
    validateBirthday ⟨2024, 6, 10⟩ "8.6.1990" = .ok "08.06.1990" ∧
    ¬ strictDMY "8.6.1990" ∧ "08.06.1990" ≠ "8.6.1990" := by
  refine ⟨rfl, ?_, by decide⟩
  rintro ⟨d, _, _, he⟩
  have hl := congrArg String.length he
  rw [formatDMY_length] at hl
  exact absurd hl (by decide)

/-- C3 (amended): `validateBirthday` accepts exactly the strings matching
`strptime`'s lenient `%d.%m.%Y` (day and month of one or two digits,
zero-padding optional, four-digit year, a constructible calendar date)
that do not lie after `today`; parse failures give `InvalidDateFormat`
and future dates `FutureDate`.  On acceptance the stored value is the
canonical zero-padded re-rendering of the parsed date, so the value
round-trips unchanged exactly on inputs already in canonical form (shown
here for years `≥ 1000`, where the model's `%Y` rendering is
platform-independent), not on all accepted inputs. -/
theorem claim_C3 (today : Date) (s : String) :
    (parseDMY s = none → validateBirthday today s = .error .invalidDateFormat) ∧
    (∀ d, parseDMY s = some d → dateLt today d = true →
      validateBirthday today s = .error .futureDate) ∧
    (∀ d, parseDMY s = some d → dateLt today d = false →
      validateBirthday today s = .ok (formatDMY d)) ∧
    (∀ d : Date, d.Valid → 1000 ≤ d.year → d.year ≤ 9999 → dateLt today d = false →
      validateBirthday today (formatDMY d) = .ok (formatDMY d)) := by
  refine ⟨?_, ?_, ?_, ?_⟩
  · intro h
    unfold validateBirthday
    rw [h]
  · intro d hp h
    unfold validateBirthday
    rw [hp]
    dsimp only
    rw [if_pos h]
  · intro d hp h
    unfold validateBirthday
    rw [hp]
    dsimp only
    rw [if_neg (fun hc => by rw [h] at hc; cases hc)]
  · intro d hv h1000 h9999 hlt
    have hp := parseDMY_formatDMY d hv h9999
    unfold validateBirthday
    rw [hp]
    dsimp only
    rw [if_neg (fun hc => by rw [hlt] at hc; cases hc)]

theorem claim_C3_witness :
    validateBirthday ⟨2024, 6, 10⟩ "01.02.1990" = .ok (formatDMY ⟨1990, 2, 1⟩) :=
  (claim_C3 ⟨2024, 6, 10⟩ "01.02.1990").2.2.2 ⟨1990, 2, 1⟩ (by decide) (by decide)
    (by decide) rfl

end ContactBook
